import Mathlib

/-!
Verification of the gamut-aware color model and diagram-image generation
engine of the PerceptualColor widget library.

The development shallowly embeds the relevant translation units:

* `src/src/polarpointf.cpp` — the polar-coordinate value type
  `PolarPointF`.  The exact, non-transcendental parts (constructor from
  polar coordinates, `normalizedAngleDegree`, `operator==`) are embedded
  over `ℚ`, which models `qreal` faithfully for these operations (they
  only use ring operations, comparisons and `fmod`).  The transcendental
  parts (`toCartesian` and the constructor from Cartesian coordinates,
  which use `sqrt`, `cos`, `sin` and `acos`) are embedded over `ℝ` with
  exact real arithmetic.
* `src/src/chromahuediagram.cpp` — `generateDiagramImage` (the diagram
  rasterizer), `setColor` and `updateDiagramCache`.
* `src/include/PerceptualColor/fullcolordescription.h` — the
  `sacrifyChroma` out-of-gamut policy.  The implementation file of this
  class is not part of the source tree, so the gamut-mapping search is
  modelled from the spec (§4.2).  The same holds for the `ChromaHueImage`
  parameter cache (§4.4), whose observable behaviour is additionally
  pinned by `src/test/testchromahueimage.cpp`.

Pixels are modelled as `Option Rgb`: `none` stands for a fully
transparent pixel (alpha `0`), `some` for an opaque color, matching how
the code fills images with `Qt::transparent` and only writes opaque
colors over that background.
-/

namespace PerceptualColor

/-! ## PolarPointF (`src/src/polarpointf.cpp`), exact part over `ℚ` -/

/-- Truncation toward zero, as C++ `fmod` performs on the quotient. -/
def truncQ (q : ℚ) : ℤ := if q < 0 then ⌈q⌉ else ⌊q⌋

/-- Model of C++ `fmod`: `fmod a b = a - b * trunc (a / b)` (remainder of
the division rounded toward zero). -/
def fmodQ (a b : ℚ) : ℚ := a - b * truncQ (a / b)

/-- Model of `PolarPointF::normalizedAngleDegree`: `fmod(angleDegree, 360)`,
then add `360` if the result is negative. -/
def normalizedAngleDegree (angleDegree : ℚ) : ℚ :=
  let temp := fmodQ angleDegree 360
  if temp < 0 then temp + 360 else temp

/-- Stored state of a `PolarPointF`. -/
structure PolarPointF where
  m_radial : ℚ
  m_angleDegree : ℚ
  deriving DecidableEq, Repr

/-- Model of `PolarPointF::PolarPointF(qreal, qreal)`: a negative radius
flips its sign and adds 180° to the angle; the angle is normalized in
both cases. -/
def polarPointF (newRadial newAngleDegree : ℚ) : PolarPointF :=
  if newRadial < 0 then
    { m_radial := newRadial * (-1)
      m_angleDegree := normalizedAngleDegree (newAngleDegree + 180) }
  else
    { m_radial := newRadial
      m_angleDegree := normalizedAngleDegree newAngleDegree }

/-- Model of `PolarPointF::operator==`: the radials must be identical, and
the angles must be identical unless the radial is `0` (where the angle is
meaningless). -/
def polarEq (p other : PolarPointF) : Bool :=
  (decide (p.m_radial = other.m_radial)) &&
    ((decide (p.m_angleDegree = other.m_angleDegree)) ||
      (decide (p.m_radial = 0)))

/-! ## PolarPointF, transcendental part over `ℝ`
(`PolarPointF::PolarPointF(QPointF)` and `PolarPointF::toCartesian`) -/

/-- Model of `qDegreesToRadians` from QtMath: `deg * (π / 180)`. -/
noncomputable def qDegreesToRadians (deg : ℝ) : ℝ := deg * (Real.pi / 180)

/-- Model of `qRadiansToDegrees` from QtMath: `rad * (180 / π)`. -/
noncomputable def qRadiansToDegrees (rad : ℝ) : ℝ := rad * (180 / Real.pi)

/-- Stored state of a `PolarPointF`, with `qreal` modelled as `ℝ` for the
operations that involve `sqrt`/`cos`/`sin`/`acos`. -/
structure PolarPointR where
  m_radial : ℝ
  m_angleDegree : ℝ

/-- Model of `PolarPointF::toCartesian`:
`(radial · cos (radians angle), radial · sin (radians angle))`. -/
noncomputable def toCartesian (p : PolarPointR) : ℝ × ℝ :=
  (p.m_radial * Real.cos (qDegreesToRadians p.m_angleDegree),
   p.m_radial * Real.sin (qDegreesToRadians p.m_angleDegree))

open Classical in
/-- Model of `PolarPointF::PolarPointF(QPointF)`: the radial is
`√(x² + y²)`; if it is `0` the angle is set to `0`; otherwise the angle is
`acos(x/radial)` for `y ≥ 0` and `2π − acos(x/radial)` for `y < 0`,
converted to degrees. -/
noncomputable def polarPointFromCartesian (x y : ℝ) : PolarPointR :=
  if Real.sqrt (x ^ 2 + y ^ 2) = 0 then
    { m_radial := Real.sqrt (x ^ 2 + y ^ 2), m_angleDegree := 0 }
  else if 0 ≤ y then
    { m_radial := Real.sqrt (x ^ 2 + y ^ 2)
      m_angleDegree :=
        qRadiansToDegrees (Real.arccos (x / Real.sqrt (x ^ 2 + y ^ 2))) }
  else
    { m_radial := Real.sqrt (x ^ 2 + y ^ 2)
      m_angleDegree :=
        qRadiansToDegrees
          (2 * Real.pi - Real.arccos (x / Real.sqrt (x ^ 2 + y ^ 2))) }

/-! ## Images and the diagram rasterizer
(`ChromaHueDiagram::generateDiagramImage`, `src/src/chromahuediagram.cpp`) -/

/-- Payload of an opaque pixel (a valid `QColor` produced by
`RgbColorSpace::colorRgb`). -/
structure Rgb where
  red : ℚ
  green : ℚ
  blue : ℚ
  deriving DecidableEq, Repr

/-- One pixel: `none` is fully transparent (alpha `0`), `some c` is the
opaque color `c`. -/
abbrev Pixel := Option Rgb

/-- Model of `RgbColorSpace::colorRgb(const cmsCIELab &)`: maps Lab
coordinates `(L, a, b)` either to a valid color or (out of gamut) to an
invalid `QColor`, modelled as `none`. -/
abbrev ColorTransform := ℚ → ℚ → ℚ → Option Rgb

/-- Model of a `QImage` of square size `size` in physical pixels, with its
pixel rows and its device-pixel-ratio metadata. -/
structure QImageModel where
  size : ℕ
  pixels : List (List Pixel)
  devicePixelRatioF : ℚ
  deriving DecidableEq, Repr

/-- Model of a default-constructed `QImage()`: the null image (no pixels,
device pixel ratio `1`). -/
def nullImage : QImageModel := { size := 0, pixels := [], devicePixelRatioF := 1 }

/-- Per-pixel value of the chroma–hue diagram, following the body of
`ChromaHueDiagram::generateDiagramImage`: a pixel `(x, y)` inside the loop
region `[border, maxIndex − border]²` is mapped to Lab coordinates
`a = (x − border)·scale − maxChroma`, `b = maxChroma − (y − border)·scale`
with `scale = 2·maxChroma / (imageSize − 2·border)` and painted with the
color transform when `a² + b² ≤ maxChroma²`; everything else stays
transparent.  The final `QPainter::drawEllipse` with the temporary image
as brush is modelled as the ideal disc mask inscribed in the square
`[border, imageSize − border]²` (antialiasing idealized to a
pixel-center-in-disc test; a non-positive ellipse rectangle paints
nothing). -/
def diagramPixel (colorRgb : ColorTransform) (imageSize : ℤ)
    (maxChroma lightness border : ℚ) (x y : ℤ) : Pixel :=
  let maxIndex : ℚ := (imageSize : ℚ) - 1
  let scaleFactor : ℚ := 2 * maxChroma / ((imageSize : ℚ) - 2 * border)
  let center : ℚ := (imageSize : ℚ) / 2
  let radius : ℚ := ((imageSize : ℚ) - 2 * border) / 2
  if 0 < radius ∧
      ((x : ℚ) + 1 / 2 - center) ^ 2 + ((y : ℚ) + 1 / 2 - center) ^ 2
        ≤ radius ^ 2 then
    if border ≤ (y : ℚ) ∧ (y : ℚ) ≤ maxIndex - border ∧
        border ≤ (x : ℚ) ∧ (x : ℚ) ≤ maxIndex - border then
      let labB : ℚ := maxChroma - ((y : ℚ) - border) * scaleFactor
      let labA : ℚ := ((x : ℚ) - border) * scaleFactor - maxChroma
      if labA ^ 2 + labB ^ 2 ≤ maxChroma ^ 2 then colorRgb lightness labA labB
      else none
    else none
  else none

/-- Model of `ChromaHueDiagram::generateDiagramImage`: returns the null
image when `maxIndex = imageSize − 1 < 1` (protecting the division), and
otherwise the `imageSize × imageSize` raster of `diagramPixel`. -/
def generateDiagramImage (colorRgb : ColorTransform) (imageSize : ℤ)
    (maxChroma lightness : ℚ) (border : ℤ) : QImageModel :=
  if imageSize - 1 < 1 then nullImage
  else
    { size := imageSize.toNat
      pixels := (List.range imageSize.toNat).map fun y =>
        (List.range imageSize.toNat).map fun x =>
          diagramPixel colorRgb imageSize maxChroma lightness (border : ℚ)
            (x : ℤ) (y : ℤ)
      devicePixelRatioF := 1 }

/-- Decides whether every pixel of an image is fully transparent
(alpha `0`). -/
def allTransparent (img : QImageModel) : Bool :=
  img.pixels.all fun row => row.all fun px => px.isNone

/-! ## ChromaHueDiagram widget state
(`ChromaHueDiagram::setColor` and `ChromaHueDiagram::updateDiagramCache`,
`src/src/chromahuediagram.cpp`) -/

/-- An LCh triple (`cmsCIELCh` / `LchDouble`): lightness, chroma, hue. -/
structure LchModel where
  l : ℚ
  c : ℚ
  h : ℚ
  deriving DecidableEq, Repr

/-- Reduction of `FullColorDescription` to the LCh representation, which
is all that `ChromaHueDiagram::setColor` reads from it
(`toLch().L`). -/
structure FullColorDescription where
  lch : LchModel
  deriving DecidableEq, Repr

/-- State of a `ChromaHueDiagram` relevant to `setColor` and the diagram
cache: the current color, the cache-ready flag and the cached image. -/
structure ChromaHueDiagramState where
  m_color : FullColorDescription
  m_diagramCacheReady : Bool
  m_diagramImage : QImageModel
  deriving DecidableEq, Repr

/-- Model of `ChromaHueDiagram::setColor`: returns unchanged when the new
color compares equal to the stored one; otherwise stores the new color and
resets `m_diagramCacheReady` exactly when the new lightness differs from
the old one.  The cached image itself is never written here.  `fcdEq`
stands for `FullColorDescription::operator==`, whose implementation file
is not in the tree; it is kept abstract.  The `update()` repaint request
and the `colorChanged` signal are outside the model. -/
def setColor (fcdEq : FullColorDescription → FullColorDescription → Bool)
    (s : ChromaHueDiagramState) (newColor : FullColorDescription) :
    ChromaHueDiagramState :=
  if fcdEq newColor s.m_color then s
  else
    { m_color := newColor
      m_diagramCacheReady :=
        if newColor.lch.l ≠ s.m_color.lch.l then false
        else s.m_diagramCacheReady
      m_diagramImage := s.m_diagramImage }

/-- Model of `ChromaHueDiagram::updateDiagramCache`: returns immediately
when the cache is ready; otherwise regenerates `m_diagramImage` with
`generateDiagramImage` from the current lightness and marks the cache
ready. -/
def updateDiagramCache (colorRgb : ColorTransform) (widgetDiameter : ℤ)
    (maxChroma : ℚ) (diagramBorder : ℤ) (s : ChromaHueDiagramState) :
    ChromaHueDiagramState :=
  if s.m_diagramCacheReady then s
  else
    { s with
      m_diagramImage :=
        generateDiagramImage colorRgb widgetDiameter maxChroma
          s.m_color.lch.l diagramBorder
      m_diagramCacheReady := true }

/-! ## The ChromaHueImage parameter cache

Modelled from the spec: the class `ChromaHueImage` is exercised by
`src/test/testchromahueimage.cpp` but its implementation file is not part
of the source tree.  The model follows §4.4 of the spec (setters compare
against the stored value and mark dirty only on change; `getImage`
regenerates lazily) and the observable behaviour pinned by the tests
(`testCache`, `testImageSize`, `testDevicePixelRatioF`): the buffer is
allocated at the requested image size in physical pixels and the
device-pixel-ratio is attached as metadata. -/

/-- Parameter tuple governing the cached chroma–hue image
(spec §3, DiagramImage: `{imageSize, border, lightnessOrHue, chromaRange,
devicePixelRatio}`). -/
structure ChromaHueImageParams where
  m_borderValue : ℚ
  m_chromaRangeValue : ℚ
  m_lightnessValue : ℚ
  m_imageSizeValue : ℤ
  m_devicePixelRatioFValue : ℚ
  deriving DecidableEq, Repr

/-- Modelled from the spec: the image generator behind
`ChromaHueImage::getImage` (implementation absent from the tree).  The
per-pixel math is `diagramPixel`, shared with
`ChromaHueDiagram::generateDiagramImage`; the buffer is allocated at
`imageSize × imageSize` physical pixels and carries the device pixel
ratio as metadata, as pinned by `TestChromaHueImage::testImageSize` and
`TestChromaHueImage::testDevicePixelRatioF`. -/
def renderChromaHueImage (colorRgb : ColorTransform)
    (p : ChromaHueImageParams) : QImageModel :=
  let n := p.m_imageSizeValue.toNat
  { size := n
    pixels := (List.range n).map fun y =>
      (List.range n).map fun x =>
        diagramPixel colorRgb p.m_imageSizeValue p.m_chromaRangeValue
          p.m_lightnessValue p.m_borderValue (x : ℤ) (y : ℤ)
    devicePixelRatioF := p.m_devicePixelRatioFValue }

/-- State of a `ChromaHueImage`: the parameter tuple, the cached image
with its validity flag, and a regeneration counter (the observable
"regeneration work" of spec §8). -/
structure ChromaHueImageState where
  params : ChromaHueImageParams
  m_imageValid : Bool
  m_image : QImageModel
  m_regenerationCount : ℕ
  deriving DecidableEq, Repr

/-- Modelled from the spec: a freshly constructed `ChromaHueImage`.  The
tests pin border `0`, device pixel ratio `1` and image size `0`
(`getImage` initially returns a size-0 image); lightness `50` and chroma
range `200` follow the spec's neutral lightness and maximum-chroma
heuristic. -/
def chromaHueImageInit : ChromaHueImageState :=
  { params :=
      { m_borderValue := 0
        m_chromaRangeValue := 200
        m_lightnessValue := 50
        m_imageSizeValue := 0
        m_devicePixelRatioFValue := 1 }
    m_imageValid := false
    m_image := nullImage
    m_regenerationCount := 0 }

/-- Modelled from the spec: `ChromaHueImage::setBorder` — compare with the
stored value; on change store it and mark dirty, on a no-op leave the
state untouched. -/
def setBorder (s : ChromaHueImageState) (newBorder : ℚ) : ChromaHueImageState :=
  if newBorder = s.params.m_borderValue then s
  else
    { s with
      params := { s.params with m_borderValue := newBorder }
      m_imageValid := false }

/-- Modelled from the spec: `ChromaHueImage::setChromaRange`. -/
def setChromaRange (s : ChromaHueImageState) (newChromaRange : ℚ) :
    ChromaHueImageState :=
  if newChromaRange = s.params.m_chromaRangeValue then s
  else
    { s with
      params := { s.params with m_chromaRangeValue := newChromaRange }
      m_imageValid := false }

/-- Modelled from the spec: `ChromaHueImage::setLightness`. -/
def setLightness (s : ChromaHueImageState) (newLightness : ℚ) :
    ChromaHueImageState :=
  if newLightness = s.params.m_lightnessValue then s
  else
    { s with
      params := { s.params with m_lightnessValue := newLightness }
      m_imageValid := false }

/-- Modelled from the spec: `ChromaHueImage::setImageSize`. -/
def setImageSize (s : ChromaHueImageState) (newImageSize : ℤ) :
    ChromaHueImageState :=
  if newImageSize = s.params.m_imageSizeValue then s
  else
    { s with
      params := { s.params with m_imageSizeValue := newImageSize }
      m_imageValid := false }

/-- Modelled from the spec: `ChromaHueImage::setDevicePixelRatioF`. -/
def setDevicePixelRatioF (s : ChromaHueImageState) (newRatioF : ℚ) :
    ChromaHueImageState :=
  if newRatioF = s.params.m_devicePixelRatioFValue then s
  else
    { s with
      params := { s.params with m_devicePixelRatioFValue := newRatioF }
      m_imageValid := false }

/-- Modelled from the spec: `ChromaHueImage::getImage` — when the cache is
valid return it; otherwise regenerate from the current parameter tuple,
store the result, mark the cache valid and count the regeneration. -/
def getImage (colorRgb : ColorTransform) (s : ChromaHueImageState) :
    QImageModel × ChromaHueImageState :=
  if s.m_imageValid then (s.m_image, s)
  else
    let img := renderChromaHueImage colorRgb s.params
    (img,
      { s with
        m_image := img
        m_imageValid := true
        m_regenerationCount := s.m_regenerationCount + 1 })

/-- One parameter-setter call on a `ChromaHueImage`. -/
inductive ChromaHueImageSetter where
  | border (v : ℚ)
  | chromaRange (v : ℚ)
  | lightness (v : ℚ)
  | imageSize (v : ℤ)
  | devicePixelRatioF (v : ℚ)
  deriving DecidableEq, Repr

/-- Dispatches one setter call. -/
def applySetter (s : ChromaHueImageState) :
    ChromaHueImageSetter → ChromaHueImageState
  | .border v => setBorder s v
  | .chromaRange v => setChromaRange s v
  | .lightness v => setLightness s v
  | .imageSize v => setImageSize s v
  | .devicePixelRatioF v => setDevicePixelRatioF s v

/-- Applies a sequence of setter calls from left to right. -/
def applySetters (acts : List ChromaHueImageSetter)
    (s : ChromaHueImageState) : ChromaHueImageState :=
  acts.foldl applySetter s

/-- Cache invariant of the `ChromaHueImage` state: whenever the validity
flag is set, the stored image is exactly the render of the stored
parameter tuple. -/
def cacheConsistent (colorRgb : ColorTransform)
    (s : ChromaHueImageState) : Prop :=
  s.m_imageValid = true → s.m_image = renderChromaHueImage colorRgb s.params

/-! ## The gamut mapper (sacrifice-chroma policy)

Modelled from the spec: `FullColorDescription::moveChromaIntoGamut`
(declared in `src/include/PerceptualColor/fullcolordescription.h`, the
implementation file is absent from the tree).  The model follows §4.2 of
the spec: normalize the hue, return unchanged when already in gamut
(identity), otherwise run a bounded monotonic bisection on chroma in
`[0, startChroma]`.  The gamut test is kept abstract: `isInGamutLch l c h`
stands for `isInGamut(toLab({l, c, h}))`; since `toLab` only feeds the
gamut check here, abstracting the composite is faithful.  Its
360°-periodicity in hue (inherited from `cos`/`sin` in `toLab`) and the
non-negativity of the `maximumChroma()` display bound (spec §4.1: a fixed
upper bound such as 200) are recorded as structure fields. -/

/-- Abstract gamut membership test, the composite
`λ l c h, isInGamut (toLab {l, c, h})`, together with the
`maximumChroma()` bound of the color space. -/
structure GamutTest where
  isInGamutLch : ℚ → ℚ → ℚ → Bool
  maximumChroma : ℚ
  hue_periodic : ∀ l c h,
    isInGamutLch l c (normalizedAngleDegree h) = isInGamutLch l c h
  maximumChroma_nonneg : 0 ≤ maximumChroma

/-- Modelled from the spec: the bounded bisection of §4.2 step 3.  The
lower bound is kept at the largest midpoint found in gamut (starting at
`0`); after the iteration budget the lower bound is returned, so the
result is in gamut whenever the lower bound ever was. -/
def chromaBisect (G : GamutTest) (l h : ℚ) : ℕ → ℚ → ℚ → ℚ
  | 0, lo, _hi => lo
  | n + 1, lo, hi =>
    let mid := (lo + hi) / 2
    if G.isInGamutLch l mid h then chromaBisect G l h n mid hi
    else chromaBisect G l h n lo mid

/-- Modelled from the spec: `nearestInGamut` under the sacrifice-chroma
policy (§4.2).  Step 1 normalizes the hue; step 2 returns the color
unchanged (identity) when it is already in gamut; step 3 treats negative
chroma as `0`, caps the search start at `maximumChroma()`, and bisects
chroma in `[0, startChroma]`; step 4 returns `{l, c*, h}` with the
normalized hue. -/
def nearestInGamut (G : GamutTest) (steps : ℕ) (color : LchModel) : LchModel :=
  let hN := normalizedAngleDegree color.h
  if G.isInGamutLch color.l color.c hN then color
  else
    let startChroma :=
      if color.c < 0 then 0
      else if G.maximumChroma ≤ color.c then G.maximumChroma else color.c
    { l := color.l, c := chromaBisect G color.l hN steps 0 startChroma, h := hN }

/-- Monotonicity of gamut membership in chroma at fixed lightness and hue
(the assumption spec §4.2 makes about well-behaved profiles): whatever is
in gamut stays in gamut when chroma shrinks (within non-negative
chroma). -/
def chromaMonotone (G : GamutTest) : Prop :=
  ∀ l h c₁ c₂, 0 ≤ c₁ → c₁ ≤ c₂ →
    G.isInGamutLch l c₂ h = true → G.isInGamutLch l c₁ h = true

/-! ## Concrete instances used by the witnesses -/

/-- An sRGB-like gamut test: lightness representable in `[0, 100]` and
chroma within `[0, 132]`, independent of hue. -/
def srgbLikeGamut : GamutTest where
  isInGamutLch := fun l c _h => decide (0 ≤ l ∧ l ≤ 100 ∧ 0 ≤ c ∧ c ≤ 132)
  maximumChroma := 200
  hue_periodic := fun _ _ _ => rfl
  maximumChroma_nonneg := by norm_num

/-- A simple concrete color transform: colors with lightness in
`[0, 100]` and chroma at most `100` are valid, everything else maps to the
invalid color. -/
def demoColorTransform : ColorTransform := fun l a b =>
  if 0 ≤ l ∧ l ≤ 100 ∧ a ^ 2 + b ^ 2 ≤ 10000 then
    some { red := l, green := a, blue := b }
  else none

/-- A concrete realization of `FullColorDescription::operator==`:
component-wise equality of the stored representations (which, in the
model, is the LCh triple). -/
def demoFcdEq : FullColorDescription → FullColorDescription → Bool :=
  fun a b => decide (a = b)

/-! ## Lemmas about angle normalization -/

/-- Tthe `fmod`-then-fix-sign computation coincides with the floored
modulo `a − 360·⌊a/360⌋`. -/
lemma normalizedAngleDegree_eq_floorMod (a : ℚ) :
    normalizedAngleDegree a = a - 360 * ⌊a / 360⌋ := by
  unfold normalizedAngleDegree fmodQ truncQ
  rcases lt_or_le (a / 360) 0 with hneg | hpos
  · simp only [if_pos hneg]
    rcases eq_or_lt_of_le (Int.floor_le (a / 360)) with hint | hfrac
    · -- the quotient is an integer: `⌈q⌉ = ⌊q⌋` and the remainder is `0`
      have hceil : (⌈a / 360⌉ : ℤ) = ⌊a / 360⌋ := by
        rw [← hint]; exact_mod_cast Int.ceil_intCast (α := ℚ) ⌊a / 360⌋
      have hz : a - 360 * (⌈a / 360⌉ : ℚ) = 0 := by
        rw [hceil, hint]; field_simp
      rw [hz]
      have : a - 360 * (⌊a / 360⌋ : ℚ) = 0 := by
        rw [hint]; field_simp
      simp [this]
    · -- the quotient is not an integer: `⌈q⌉ = ⌊q⌋ + 1`
      have hceil : (⌈a / 360⌉ : ℤ) = ⌊a / 360⌋ + 1 := by
        have h1 : (⌊a / 360⌋ : ℤ) + 1 ≤ ⌈a / 360⌉ := by
          have : (⌊a / 360⌋ : ℚ) < ⌈a / 360⌉ := lt_of_lt_of_le hfrac (Int.le_ceil _)
          exact_mod_cast this
        exact le_antisymm (Int.ceil_le_floor_add_one _) h1
      have hlt : a - 360 * (⌈a / 360⌉ : ℚ) < 0 := by
        push_cast [hceil]
        have : a < 360 * ((⌊a / 360⌋ : ℚ) + 1) := by
          have h360 : (0 : ℚ) < 360 := by norm_num
          have := Int.lt_floor_add_one (a / 360)
          calc a = a / 360 * 360 := by field_simp
            _ < ((⌊a / 360⌋ : ℚ) + 1) * 360 := by
                exact mul_lt_mul_of_pos_right this h360
            _ = 360 * ((⌊a / 360⌋ : ℚ) + 1) := by ring
        linarith
      rw [if_pos hlt]
      push_cast [hceil]
      ring
  · have hfl : (0 : ℚ) ≤ a - 360 * ⌊a / 360⌋ := by
      have h360 : (0 : ℚ) < 360 := by norm_num
      have := Int.floor_le (a / 360)
      have : (⌊a / 360⌋ : ℚ) * 360 ≤ a / 360 * 360 :=
        mul_le_mul_of_nonneg_right this (le_of_lt h360)
      have ha : a / 360 * 360 = a := by field_simp
      nlinarith
    simp only [if_neg (not_lt.mpr hpos)]
    rw [if_neg (not_lt.mpr hfl)]

/-- The normalized angle lands in `[0, 360)`. -/
lemma normalizedAngleDegree_mem (a : ℚ) :
    0 ≤ normalizedAngleDegree a ∧ normalizedAngleDegree a < 360 := by
  rw [normalizedAngleDegree_eq_floorMod]
  constructor
  · have := Int.floor_le (a / 360)
    have h : (⌊a / 360⌋ : ℚ) * 360 ≤ a / 360 * 360 :=
      mul_le_mul_of_nonneg_right this (by norm_num)
    have ha : a / 360 * 360 = a := by field_simp
    nlinarith
  · have := Int.lt_floor_add_one (a / 360)
    have h : a / 360 * 360 < ((⌊a / 360⌋ : ℚ) + 1) * 360 :=
      mul_lt_mul_of_pos_right this (by norm_num)
    have ha : a / 360 * 360 = a := by field_simp
    nlinarith

/-! ## Claim theorems -/

/-- C8: every `PolarPointF` is normalized at construction: for all input
pairs `(r, a)` the constructed point satisfies `radial() ≥ 0` and
`0 ≤ angleDegree() < 360`; if `r < 0` the stored radial is `−r` and the
stored angle is `(a + 180)` folded into `[0, 360)` by floored modulo,
otherwise the stored radial is `r` and the stored angle is `a` folded into
`[0, 360)` by floored modulo. -/
theorem polarPointF_normalized (r a : ℚ) :
    0 ≤ (polarPointF r a).m_radial ∧
    0 ≤ (polarPointF r a).m_angleDegree ∧
    (polarPointF r a).m_angleDegree < 360 ∧
    (r < 0 →
      (polarPointF r a).m_radial = -r ∧
      (polarPointF r a).m_angleDegree =
        (a + 180) - 360 * ⌊(a + 180) / 360⌋) ∧
    (0 ≤ r →
      (polarPointF r a).m_radial = r ∧
      (polarPointF r a).m_angleDegree = a - 360 * ⌊a / 360⌋) := by
  unfold polarPointF
  rcases lt_or_le r 0 with hr | hr
  · simp only [if_pos hr]
    refine ⟨by linarith, (normalizedAngleDegree_mem _).1,
      (normalizedAngleDegree_mem _).2, ?_, ?_⟩
    · intro _
      exact ⟨by ring, normalizedAngleDegree_eq_floorMod _⟩
    · intro h
      exact absurd h (not_le.mpr hr)
  · simp only [if_neg (not_lt.mpr hr)]
    refine ⟨hr, (normalizedAngleDegree_mem _).1,
      (normalizedAngleDegree_mem _).2, ?_, ?_⟩
    · intro h
      exact absurd h (not_lt.mpr hr)
    · intro _
      exact ⟨by trivial, normalizedAngleDegree_eq_floorMod _⟩

/-- Witness for C8, instantiated on both branches: `(−5, 370)` gives
radial `5` and angle `190`; `(5, 370)` gives radial `5` and angle `10`. -/
theorem polarPointF_normalized_witness :
    ((polarPointF (-5) 370).m_radial = -(-5) ∧
      (polarPointF (-5) 370).m_angleDegree =
        ((370 : ℚ) + 180) - 360 * ⌊((370 : ℚ) + 180) / 360⌋) ∧
    ((polarPointF 5 370).m_radial = 5 ∧
      (polarPointF 5 370).m_angleDegree = (370 : ℚ) - 360 * ⌊(370 : ℚ) / 360⌋) :=
  ⟨(polarPointF_normalized (-5) 370).2.2.2.1 (by norm_num),
   (polarPointF_normalized 5 370).2.2.2.2 (by norm_num)⟩

/-- C10: `PolarPointF::operator==` compares coordinates, not stored fields
blindly: two points with radial `0` compare equal regardless of their
angles; for radial ≠ 0, equality holds exactly when both radial and angle
are identical; and constructing a `PolarPointF` from the Cartesian origin
`(0, 0)` yields radial `0` and angle `0`, so equality at the origin is
well defined. -/
theorem polarEq_semantics :
    (∀ a₁ a₂ : ℚ, polarEq (polarPointF 0 a₁) (polarPointF 0 a₂) = true) ∧
    (∀ p q : PolarPointF, p.m_radial ≠ 0 →
      (polarEq p q = true ↔
        p.m_radial = q.m_radial ∧ p.m_angleDegree = q.m_angleDegree)) ∧
    (polarPointFromCartesian 0 0).m_radial = 0 ∧
    (polarPointFromCartesian 0 0).m_angleDegree = 0 := by
  refine ⟨?_, ?_, ?_, ?_⟩
  · intro a₁ a₂
    simp [polarEq, polarPointF]
  · intro p q hp
    simp only [polarEq, Bool.and_eq_true, Bool.or_eq_true, decide_eq_true_eq]
    constructor
    · rintro ⟨h1, h2 | h2⟩
      · exact ⟨h1, h2⟩
      · exact absurd h2 hp
    · rintro ⟨h1, h2⟩
      exact ⟨h1, Or.inl h2⟩
  · simp [polarPointFromCartesian]
  · simp [polarPointFromCartesian]

/-- Witness for C10 at concrete points: `⟨5, 10⟩` and `⟨5, 20⟩` have
nonzero radial, so their comparison reduces to field equality. -/
theorem polarEq_semantics_witness :
    polarEq { m_radial := 5, m_angleDegree := 10 }
        { m_radial := 5, m_angleDegree := 20 } = true ↔
      (5 : ℚ) = 5 ∧ (10 : ℚ) = 20 :=
  polarEq_semantics.2.1 { m_radial := 5, m_angleDegree := 10 }
    { m_radial := 5, m_angleDegree := 20 } (by norm_num)

/-- Helper for C9: the exact-real round trip of the source's conversion
pair, at positive radial and normalized angle. -/
lemma polar_round_trip (r a : ℝ) (hr : 0 < r) (ha0 : 0 ≤ a) (ha : a < 360) :
    polarPointFromCartesian (toCartesian { m_radial := r, m_angleDegree := a }).1
        (toCartesian { m_radial := r, m_angleDegree := a }).2 =
      { m_radial := r, m_angleDegree := a } := by
  have hπ := Real.pi_pos
  have hx : (toCartesian { m_radial := r, m_angleDegree := a }).1 =
      r * Real.cos (qDegreesToRadians a) := rfl
  have hy : (toCartesian { m_radial := r, m_angleDegree := a }).2 =
      r * Real.sin (qDegreesToRadians a) := rfl
  have hθval : qDegreesToRadians a = a * (Real.pi / 180) := rfl
  have hθ0 : 0 ≤ qDegreesToRadians a := by
    rw [hθval]; exact mul_nonneg ha0 (by positivity)
  have hθlt : qDegreesToRadians a < 2 * Real.pi := by
    rw [hθval]
    have h1 : a * (Real.pi / 180) < 360 * (Real.pi / 180) :=
      mul_lt_mul_of_pos_right ha (by positivity)
    nlinarith
  have hsum : (r * Real.cos (qDegreesToRadians a)) ^ 2 +
      (r * Real.sin (qDegreesToRadians a)) ^ 2 = r ^ 2 := by
    have h := Real.sin_sq_add_cos_sq (qDegreesToRadians a)
    nlinarith
  have hrad : Real.sqrt ((r * Real.cos (qDegreesToRadians a)) ^ 2 +
      (r * Real.sin (qDegreesToRadians a)) ^ 2) = r := by
    rw [hsum]; exact Real.sqrt_sq hr.le
  have hrne : r ≠ 0 := ne_of_gt hr
  have hdiv : r * Real.cos (qDegreesToRadians a) / r =
      Real.cos (qDegreesToRadians a) := by
    field_simp
  have hdeg : qRadiansToDegrees (qDegreesToRadians a) = a := by
    rw [qRadiansToDegrees, hθval]
    field_simp
  rw [hx, hy]
  unfold polarPointFromCartesian
  rw [hrad, hdiv]
  rcases le_or_lt 0 (r * Real.sin (qDegreesToRadians a)) with hy0 | hy0
  · have hsin : 0 ≤ Real.sin (qDegreesToRadians a) := by
      by_contra hneg
      push_neg at hneg
      exact absurd hy0 (not_le.mpr (mul_neg_of_pos_of_neg hr hneg))
    have hθπ : qDegreesToRadians a ≤ Real.pi := by
      by_contra hgt
      push_neg at hgt
      have h1 : 0 < qDegreesToRadians a - Real.pi := by linarith
      have h2 : qDegreesToRadians a - Real.pi < Real.pi := by linarith
      have h3 := Real.sin_pos_of_pos_of_lt_pi h1 h2
      rw [Real.sin_sub_pi] at h3
      linarith
    rw [if_neg hrne, if_pos hy0, Real.arccos_cos hθ0 hθπ, hdeg]
  · have hsin : Real.sin (qDegreesToRadians a) < 0 := by
      by_contra hnonneg
      push_neg at hnonneg
      exact absurd hy0 (not_lt.mpr (mul_nonneg hr.le hnonneg))
    have hθgt : Real.pi < qDegreesToRadians a := by
      by_contra hle
      push_neg at hle
      have := Real.sin_nonneg_of_nonneg_of_le_pi hθ0 hle
      linarith
    have h1 : 0 ≤ 2 * Real.pi - qDegreesToRadians a := by linarith
    have h2 : 2 * Real.pi - qDegreesToRadians a ≤ Real.pi := by linarith
    have hcos : Real.cos (qDegreesToRadians a) =
        Real.cos (2 * Real.pi - qDegreesToRadians a) :=
      (Real.cos_two_pi_sub (qDegreesToRadians a)).symm
    rw [if_neg hrne, if_neg (not_le.mpr hy0), hcos,
      Real.arccos_cos h1 h2,
      show 2 * Real.pi - (2 * Real.pi - qDegreesToRadians a) =
        qDegreesToRadians a from by ring,
      hdeg]

/-- C9: for every radial `r > 0` and angle `a ∈ [0, 360)`, converting
`PolarPointF(r, a)` to Cartesian coordinates and reconstructing a
`PolarPointF` from them yields `(r, a)` again (exactly, in the real-number
model of `qreal`, hence within floating-point tolerance); and
`PolarPointF(−5, 10)` equals `PolarPointF(5, 190)` under `operator==`. -/
theorem polar_cartesian_round_trip :
    (∀ r a : ℝ, 0 < r → 0 ≤ a → a < 360 →
      polarPointFromCartesian
          (toCartesian { m_radial := r, m_angleDegree := a }).1
          (toCartesian { m_radial := r, m_angleDegree := a }).2 =
        { m_radial := r, m_angleDegree := a }) ∧
    polarEq (polarPointF (-5) 10) (polarPointF 5 190) = true := by
  refine ⟨fun r a hr ha0 ha => polar_round_trip r a hr ha0 ha, ?_⟩
  have h0 : (⌊(190 : ℚ) / 360⌋ : ℤ) = 0 := by
    rw [Int.floor_eq_zero_iff, Set.mem_Ico]
    norm_num
  have hB : normalizedAngleDegree (190 : ℚ) = 190 := by
    rw [normalizedAngleDegree_eq_floorMod, h0]
    norm_num
  have hp1 : polarPointF (-5) 10 = { m_radial := 5, m_angleDegree := 190 } := by
    rw [polarPointF, if_pos (show (-5 : ℚ) < 0 by norm_num),
      show ((10 : ℚ) + 180) = 190 from by norm_num, hB]
    norm_num
  have hp2 : polarPointF 5 190 = { m_radial := 5, m_angleDegree := 190 } := by
    rw [polarPointF, if_neg (show ¬(5 : ℚ) < 0 by norm_num), hB]
  rw [hp1, hp2]
  simp [polarEq]

/-- Witness for C9 at `r = 5`, `a = 10`. -/
theorem polar_cartesian_round_trip_witness :
    polarPointFromCartesian
        (toCartesian { m_radial := (5 : ℝ), m_angleDegree := 10 }).1
        (toCartesian { m_radial := (5 : ℝ), m_angleDegree := 10 }).2 =
      { m_radial := (5 : ℝ), m_angleDegree := 10 } :=
  polar_cartesian_round_trip.1 5 10 (by norm_num) (by norm_num) (by norm_num)

/-! ## Lemmas about the chroma bisection -/

/-- The bisection preserves an in-gamut lower bound. -/
lemma chromaBisect_inGamut (G : GamutTest) (l h : ℚ) :
    ∀ (n : ℕ) (lo hi : ℚ), G.isInGamutLch l lo h = true →
      G.isInGamutLch l (chromaBisect G l h n lo hi) h = true := by
  intro n
  induction n with
  | zero => intro lo hi hlo; simpa [chromaBisect] using hlo
  | succ n ih =>
    intro lo hi hlo
    simp only [chromaBisect]
    by_cases hmid : G.isInGamutLch l ((lo + hi) / 2) h = true
    · rw [if_pos hmid]; exact ih _ _ hmid
    · rw [if_neg hmid]; exact ih _ _ hlo

/-- The bisection result is either in gamut or still the initial lower
bound. -/
lemma chromaBisect_cases (G : GamutTest) (l h : ℚ) :
    ∀ (n : ℕ) (lo hi : ℚ),
      G.isInGamutLch l (chromaBisect G l h n lo hi) h = true ∨
        chromaBisect G l h n lo hi = lo := by
  intro n
  induction n with
  | zero => intro lo hi; right; rfl
  | succ n ih =>
    intro lo hi
    simp only [chromaBisect]
    by_cases hmid : G.isInGamutLch l ((lo + hi) / 2) h = true
    · rw [if_pos hmid]
      rcases ih ((lo + hi) / 2) hi with hgam | heq
      · exact Or.inl hgam
      · exact Or.inl (by rw [heq]; exact hmid)
    · rw [if_neg hmid]
      exact ih lo ((lo + hi) / 2)

/-- When no non-negative chroma is in gamut, the bisection never moves its
lower bound. -/
lemma chromaBisect_stuck (G : GamutTest) (l h : ℚ)
    (hfail : ∀ c', 0 ≤ c' → G.isInGamutLch l c' h = false) :
    ∀ (n : ℕ) (lo hi : ℚ), 0 ≤ lo → 0 ≤ hi →
      chromaBisect G l h n lo hi = lo := by
  intro n
  induction n with
  | zero => intro lo hi _ _; rfl
  | succ n ih =>
    intro lo hi hlo hhi
    have hmid : 0 ≤ (lo + hi) / 2 := by linarith
    simp only [chromaBisect]
    rw [if_neg (by rw [hfail _ hmid]; exact Bool.false_ne_true)]
    exact ih lo ((lo + hi) / 2) hlo hmid

/-- C1: for every `LchColor` that is already in gamut, the gamut mapping
with the sacrifice-chroma policy returns it unchanged — exactly the same
`l`, `c` and `h` coordinates (idempotence). -/
theorem nearestInGamut_identity (G : GamutTest) (steps : ℕ) (c : LchModel)
    (h : G.isInGamutLch c.l c.c c.h = true) :
    nearestInGamut G steps c = c := by
  simp only [nearestInGamut]
  rw [G.hue_periodic, h]
  simp

/-- Witness for C1: the in-gamut color `{50, 30, 10}` is returned
unchanged. -/
theorem nearestInGamut_identity_witness :
    nearestInGamut srgbLikeGamut 25 { l := 50, c := 30, h := 10 } =
      { l := 50, c := 30, h := 10 } :=
  nearestInGamut_identity srgbLikeGamut 25 { l := 50, c := 30, h := 10 }
    (by decide)

/-- C2: the gamut mapping with the sacrifice-chroma policy never raises an
error and never adjusts lightness (the result's `l` is the input's `l`
verbatim); its result is in gamut, except when the input's lightness is
outside the representable lightness range (gray at that lightness is out
of gamut), in which case the result degrades to `{l, 0, h}` with the
normalized hue — under the chroma-monotonicity assumption of §4.2, that
exceptional result is exact for any non-negative input chroma. -/
theorem nearestInGamut_convergence (G : GamutTest) (steps : ℕ) (c : LchModel) :
    (nearestInGamut G steps c).l = c.l ∧
    (G.isInGamutLch (nearestInGamut G steps c).l (nearestInGamut G steps c).c
        (nearestInGamut G steps c).h = true ∨
      (G.isInGamutLch c.l 0 (normalizedAngleDegree c.h) = false ∧
        (nearestInGamut G steps c).c = 0 ∧
        (nearestInGamut G steps c).h = normalizedAngleDegree c.h)) ∧
    (chromaMonotone G → 0 ≤ c.c →
      G.isInGamutLch c.l 0 (normalizedAngleDegree c.h) = false →
      nearestInGamut G steps c =
        { l := c.l, c := 0, h := normalizedAngleDegree c.h }) := by
  by_cases hin : G.isInGamutLch c.l c.c (normalizedAngleDegree c.h) = true
  · have heq : nearestInGamut G steps c = c := by
      simp only [nearestInGamut]
      rw [hin]
      simp
    refine ⟨by rw [heq], Or.inl ?_, ?_⟩
    · rw [heq]
      exact (G.hue_periodic c.l c.c c.h).symm.trans hin
    · intro hmono hcc hgray
      exact absurd (hmono c.l (normalizedAngleDegree c.h) 0 c.c le_rfl hcc hin)
        (by rw [hgray]; exact Bool.false_ne_true)
  · have hinF : G.isInGamutLch c.l c.c (normalizedAngleDegree c.h) = false :=
      Bool.not_eq_true _ ▸ hin
    have heq : nearestInGamut G steps c =
        { l := c.l
          c := chromaBisect G c.l (normalizedAngleDegree c.h) steps 0
            (if c.c < 0 then 0
             else if G.maximumChroma ≤ c.c then G.maximumChroma else c.c)
          h := normalizedAngleDegree c.h } := by
      simp only [nearestInGamut]
      rw [hinF]
      simp
    refine ⟨by rw [heq], ?_, ?_⟩
    · rcases chromaBisect_cases G c.l (normalizedAngleDegree c.h) steps 0
          (if c.c < 0 then 0
           else if G.maximumChroma ≤ c.c then G.maximumChroma else c.c)
        with hgam | hzero
      · left
        rw [heq]
        exact hgam
      · by_cases hgray : G.isInGamutLch c.l 0 (normalizedAngleDegree c.h) = true
        · left
          rw [heq]
          simpa [hzero] using hgray
        · right
          exact ⟨Bool.not_eq_true _ ▸ hgray, by rw [heq]; exact hzero,
            by rw [heq]⟩
    · intro hmono hcc hgray
      have hfail : ∀ c', 0 ≤ c' →
          G.isInGamutLch c.l c' (normalizedAngleDegree c.h) = false := by
        intro c' hc'
        by_cases h' : G.isInGamutLch c.l c' (normalizedAngleDegree c.h) = true
        · exact absurd
            (hmono c.l (normalizedAngleDegree c.h) 0 c' le_rfl hc' h')
            (by rw [hgray]; exact Bool.false_ne_true)
        · exact Bool.not_eq_true _ ▸ h'
      have hstart : (0 : ℚ) ≤
          (if c.c < 0 then 0
           else if G.maximumChroma ≤ c.c then G.maximumChroma else c.c) := by
        by_cases h1 : c.c < 0
        · rw [if_pos h1]
        · rw [if_neg h1]
          by_cases h2 : G.maximumChroma ≤ c.c
          · rw [if_pos h2]; exact G.maximumChroma_nonneg
          · rw [if_neg h2]; exact hcc
      rw [heq,
        chromaBisect_stuck G c.l (normalizedAngleDegree c.h) hfail steps 0 _
          le_rfl hstart]

/-- Witness for C2: lightness `200` is outside the representable range of
the sRGB-like gamut, so the search degrades to chroma `0` at that
lightness. -/
theorem nearestInGamut_convergence_witness :
    nearestInGamut srgbLikeGamut 25 { l := 200, c := 50, h := 10 } =
      { l := 200, c := 0, h := normalizedAngleDegree 10 } :=
  (nearestInGamut_convergence srgbLikeGamut 25
      { l := 200, c := 50, h := 10 }).2.2
    (by
      intro l h c₁ c₂ h0 h12 hc
      simp only [srgbLikeGamut, decide_eq_true_eq] at hc ⊢
      exact ⟨hc.1, hc.2.1, h0, le_trans h12 hc.2.2.2⟩)
    (by norm_num)
    (by decide)

/-- C4: for the diagram rasterizer, every requested image size `≤ 1` (in
particular `0` and `1`) produces a valid empty image — no pixels, size
`0 × 0` — instead of running the loop whose scale factor would divide by
a degenerate extent; the function is total, so no error is raised. -/
theorem generateDiagramImage_degenerate (colorRgb : ColorTransform)
    (imageSize : ℤ) (maxChroma lightness : ℚ) (border : ℤ)
    (h : imageSize ≤ 1) :
    (generateDiagramImage colorRgb imageSize maxChroma lightness border).size
        = 0 ∧
    (generateDiagramImage colorRgb imageSize maxChroma lightness
        border).pixels = [] := by
  unfold generateDiagramImage
  rw [if_pos (by omega)]
  exact ⟨rfl, rfl⟩

/-- Witness for C4 at image sizes `0` and `1`. -/
theorem generateDiagramImage_degenerate_witness :
    (generateDiagramImage demoColorTransform 0 200 50 0).size = 0 ∧
    (generateDiagramImage demoColorTransform 1 200 50 0).pixels = [] :=
  ⟨(generateDiagramImage_degenerate demoColorTransform 0 200 50 0
      (by norm_num)).1,
   (generateDiagramImage_degenerate demoColorTransform 1 200 50 0
      (by norm_num)).2⟩

/-- C7: for the diagram rasterizer, whenever the border is at least half
the image size, every pixel of the produced image is fully transparent
(alpha `0`); the image is still produced, so this is not reported as an
error. -/
theorem generateDiagramImage_bigBorder (colorRgb : ColorTransform)
    (imageSize : ℤ) (maxChroma lightness : ℚ) (border : ℤ)
    (h : imageSize ≤ 2 * border) :
    allTransparent
      (generateDiagramImage colorRgb imageSize maxChroma lightness border)
      = true := by
  unfold generateDiagramImage allTransparent
  by_cases hsz : imageSize - 1 < 1
  · rw [if_pos hsz]
    rfl
  · rw [if_neg hsz]
    rw [List.all_eq_true]
    rintro row hrow
    rw [List.mem_map] at hrow
    obtain ⟨y, _, rfl⟩ := hrow
    rw [List.all_eq_true]
    rintro px hpx
    rw [List.mem_map] at hpx
    obtain ⟨x, _, rfl⟩ := hpx
    simp only [diagramPixel]
    rw [if_neg]
    · rfl
    · rintro ⟨hrad, -⟩
      have hb : ((imageSize : ℚ) - 2 * (border : ℚ)) ≤ 0 := by
        have : (imageSize : ℚ) ≤ 2 * (border : ℚ) := by exact_mod_cast h
        linarith
      linarith

/-- Witness for C7: image size `4` with border `2` is entirely
transparent. -/
theorem generateDiagramImage_bigBorder_witness :
    allTransparent (generateDiagramImage demoColorTransform 4 10 50 2)
      = true :=
  generateDiagramImage_bigBorder demoColorTransform 4 10 50 2 (by norm_num)

/-- C5: for `ChromaHueDiagram::setColor`, the cached diagram image is
never touched; if the new color's lightness equals the old one, the
cache-ready flag is also unchanged (so chroma- or hue-only changes never
invalidate the cached image); the cache is marked dirty exactly when the
lightness differs.  The hypothesis about `fcdEq` records the only fact
needed of `FullColorDescription::operator==` (whose implementation file
is absent from the tree): colors comparing equal have equal lightness. -/
theorem setColor_cache
    (fcdEq : FullColorDescription → FullColorDescription → Bool)
    (s : ChromaHueDiagramState) (newColor : FullColorDescription)
    (hEq : ∀ a b, fcdEq a b = true → a.lch.l = b.lch.l) :
    (setColor fcdEq s newColor).m_diagramImage = s.m_diagramImage ∧
    (newColor.lch.l = s.m_color.lch.l →
      (setColor fcdEq s newColor).m_diagramCacheReady
        = s.m_diagramCacheReady) ∧
    (newColor.lch.l ≠ s.m_color.lch.l →
      (setColor fcdEq s newColor).m_diagramCacheReady = false) := by
  unfold setColor
  by_cases h : fcdEq newColor s.m_color = true
  · rw [if_pos h]
    exact ⟨rfl, fun _ => rfl, fun hne => absurd (hEq _ _ h) hne⟩
  · rw [if_neg h]
    refine ⟨rfl, ?_, ?_⟩
    · intro hl
      simp [hl]
    · intro hne
      simp [hne]

/-- Witness for C5: a lightness change from `50` to `60` marks the cache
dirty. -/
theorem setColor_cache_witness :
    (setColor demoFcdEq
        { m_color := { lch := { l := 50, c := 30, h := 10 } }
          m_diagramCacheReady := true
          m_diagramImage := nullImage }
        { lch := { l := 60, c := 30, h := 10 } }).m_diagramCacheReady
      = false :=
  (setColor_cache demoFcdEq
      { m_color := { lch := { l := 50, c := 30, h := 10 } }
        m_diagramCacheReady := true
        m_diagramImage := nullImage }
      { lch := { l := 60, c := 30, h := 10 } }
      (fun a b hab => by rw [of_decide_eq_true hab])).2.2 (by norm_num)

/-! ## Lemmas about the ChromaHueImage cache -/

/-- Every single setter call preserves the cache invariant. -/
lemma applySetter_consistent (colorRgb : ColorTransform)
    (s : ChromaHueImageState) (act : ChromaHueImageSetter)
    (h : cacheConsistent colorRgb s) :
    cacheConsistent colorRgb (applySetter s act) := by
  cases act <;>
    simp only [applySetter, setBorder, setChromaRange, setLightness,
      setImageSize, setDevicePixelRatioF] <;>
    split <;>
    first
      | exact h
      | (intro hvalid; simp at hvalid)

/-- Any sequence of setter calls preserves the cache invariant. -/
lemma applySetters_consistent (colorRgb : ColorTransform)
    (acts : List ChromaHueImageSetter) (s : ChromaHueImageState)
    (h : cacheConsistent colorRgb s) :
    cacheConsistent colorRgb (applySetters acts s) := by
  induction acts generalizing s with
  | nil => exact h
  | cons act rest ih =>
    exact ih (applySetter s act) (applySetter_consistent colorRgb s act h)

/-- On a consistent state, `getImage` returns exactly the render of the
current parameter tuple. -/
lemma getImage_eq_render (colorRgb : ColorTransform)
    (s : ChromaHueImageState) (h : cacheConsistent colorRgb s) :
    (getImage colorRgb s).1 = renderChromaHueImage colorRgb s.params := by
  unfold getImage
  by_cases hv : s.m_imageValid = true
  · rw [if_pos hv]
    exact h hv
  · rw [if_neg hv]

/-- The state after a `getImage` call is a fixed point of `getImage`: the
cache is valid and a further call returns the cached image without any
regeneration. -/
lemma getImage_fixed (colorRgb : ColorTransform) (s : ChromaHueImageState) :
    getImage colorRgb ((getImage colorRgb s).2) =
      ((getImage colorRgb s).2.m_image, (getImage colorRgb s).2) := by
  unfold getImage
  by_cases hv : s.m_imageValid = true
  · rw [if_pos hv]
    simp [if_pos hv]
  · rw [if_neg hv]
    rfl

/-- C3: for the diagram cache, (1) after any sequence of parameter-setter
calls followed by one `getImage()`, the returned image equals
pixel-for-pixel the image the rasterizer produces from the latest
parameter tuple; (2) calling any setter with a value identical to the
stored one leaves the whole state — in particular the cache validity —
untouched; (3) any number of further `getImage()` calls while the
parameters stay unchanged leaves the state (including the regeneration
counter) fixed, so at most one regeneration occurs per dirty period; and
(4) `ChromaHueDiagram::updateDiagramCache` likewise marks its cache ready
and is idempotent. -/
theorem chromaHueImage_cache_correct (colorRgb : ColorTransform)
    (acts : List ChromaHueImageSetter) (s : ChromaHueImageState)
    (h : cacheConsistent colorRgb s) :
    (getImage colorRgb (applySetters acts s)).1 =
      renderChromaHueImage colorRgb (applySetters acts s).params ∧
    (∀ t : ChromaHueImageState,
      setBorder t t.params.m_borderValue = t ∧
      setChromaRange t t.params.m_chromaRangeValue = t ∧
      setLightness t t.params.m_lightnessValue = t ∧
      setImageSize t t.params.m_imageSizeValue = t ∧
      setDevicePixelRatioF t t.params.m_devicePixelRatioFValue = t) ∧
    (∀ n : ℕ,
      (fun t => (getImage colorRgb t).2)^[n]
          ((getImage colorRgb (applySetters acts s)).2) =
        (getImage colorRgb (applySetters acts s)).2) ∧
    (∀ (colorRgb₂ : ColorTransform) (widgetDiameter : ℤ) (maxChroma : ℚ)
        (diagramBorder : ℤ) (d : ChromaHueDiagramState),
      (updateDiagramCache colorRgb₂ widgetDiameter maxChroma diagramBorder
          d).m_diagramCacheReady = true ∧
      updateDiagramCache colorRgb₂ widgetDiameter maxChroma diagramBorder
          (updateDiagramCache colorRgb₂ widgetDiameter maxChroma
            diagramBorder d) =
        updateDiagramCache colorRgb₂ widgetDiameter maxChroma diagramBorder
          d) := by
  refine ⟨?_, ?_, ?_, ?_⟩
  · exact getImage_eq_render colorRgb _ (applySetters_consistent _ acts s h)
  · intro t
    refine ⟨?_, ?_, ?_, ?_, ?_⟩ <;>
      simp [setBorder, setChromaRange, setLightness, setImageSize,
        setDevicePixelRatioF]
  · intro n
    induction n with
    | zero => rfl
    | succ n ih =>
      rw [Function.iterate_succ_apply]
      have hfix :
          (getImage colorRgb
              ((getImage colorRgb (applySetters acts s)).2)).2 =
            (getImage colorRgb (applySetters acts s)).2 := by
        rw [getImage_fixed]
      simp only [hfix]
      exact ih
  · intro colorRgb₂ widgetDiameter maxChroma diagramBorder d
    constructor
    · by_cases hd : d.m_diagramCacheReady = true
      · simp [updateDiagramCache, hd]
      · simp [updateDiagramCache, hd]
    · by_cases hd : d.m_diagramCacheReady = true
      · simp [updateDiagramCache, hd]
      · simp [updateDiagramCache, hd]

/-- Witness for C3: from a fresh `ChromaHueImage`, set image size `2` and
border `1`; the first `getImage` then returns the render of that
parameter tuple. -/
theorem chromaHueImage_cache_correct_witness :
    (getImage demoColorTransform
        (applySetters [ChromaHueImageSetter.imageSize 2,
          ChromaHueImageSetter.border 1] chromaHueImageInit)).1 =
      renderChromaHueImage demoColorTransform
        (applySetters [ChromaHueImageSetter.imageSize 2,
          ChromaHueImageSetter.border 1] chromaHueImageInit).params :=
  (chromaHueImage_cache_correct demoColorTransform
      [ChromaHueImageSetter.imageSize 2, ChromaHueImageSetter.border 1]
      chromaHueImageInit
      (by intro hv; simp [chromaHueImageInit] at hv)).1

/-- C6 (amended): setting a device-pixel-ratio factor `r` stores `r` and
stamps it as metadata on the produced image, while the pixel buffer stays
at `imageSize × imageSize` physical pixels and the pixel contents — the
color placement — are unaffected by `r`. -/
theorem devicePixelRatio_metadata_only (colorRgb : ColorTransform)
    (p : ChromaHueImageParams) (ratioF : ℚ) (s : ChromaHueImageState) :
    (renderChromaHueImage colorRgb
        { p with m_devicePixelRatioFValue := ratioF }).size
      = p.m_imageSizeValue.toNat ∧
    (renderChromaHueImage colorRgb
        { p with m_devicePixelRatioFValue := ratioF }).devicePixelRatioF
      = ratioF ∧
    (renderChromaHueImage colorRgb
        { p with m_devicePixelRatioFValue := ratioF }).pixels
      = (renderChromaHueImage colorRgb p).pixels ∧
    (setDevicePixelRatioF s ratioF).params.m_devicePixelRatioFValue
      = ratioF := by
  refine ⟨rfl, rfl, rfl, ?_⟩
  unfold setDevicePixelRatioF
  by_cases hr : ratioF = s.params.m_devicePixelRatioFValue
  · rw [if_pos hr]
    exact hr.symm
  · rw [if_neg hr]

/-- Counterexample for C6 as stated: on a fresh `ChromaHueImage` with
image size `2`, setting the device-pixel-ratio factor `2` does **not**
allocate the buffer at `imageSize × r = 4` physical pixels: the buffer
stays at `2 × 2` physical pixels with ratio `2` attached as metadata
(before the call the pair was size `2`, ratio `1`), so the logical size
`size / ratio` shrinks from `2` to `1` instead of staying unchanged —
exactly what `TestChromaHueImage::testDevicePixelRatioF` pins. -/
theorem devicePixelRatio_claim_false :
    ¬((getImage demoColorTransform
        (setDevicePixelRatioF (setImageSize chromaHueImageInit 2) 2)).1.size
      = 2 * 2) ∧
    (getImage demoColorTransform
        (setDevicePixelRatioF (setImageSize chromaHueImageInit 2) 2)).1.size
      = 2 ∧
    (getImage demoColorTransform
        (setDevicePixelRatioF (setImageSize chromaHueImageInit
          2) 2)).1.devicePixelRatioF = 2 ∧
    (getImage demoColorTransform
        (setImageSize chromaHueImageInit 2)).1.size = 2 ∧
    (getImage demoColorTransform
        (setImageSize chromaHueImageInit 2)).1.devicePixelRatioF = 1 ∧
    ((2 : ℚ) / 2 ≠ 2 / 1) := by
  refine ⟨by decide, by decide, by decide, by decide, by decide, by norm_num⟩

end PerceptualColor
